import Mathlib

/-!
Shallow embedding of src/server.js (level5-backend price-aggregation proxy).

Conventions of the embedding:
  * JS numbers are modelled as exact rationals; a JS number that is NaN is
    modelled by the dedicated constructor JSNum.nan.  Raw provider payloads are
    JSON, so raw field values never contain NaN or Infinity.
  * JS null/undefined are both modelled as Option.none (the source only
    distinguishes them through `||` and `??`, which treat them alike).
  * The two regular expressions of sizeToKg are modelled by a direct scanning
    matcher.  The character classes of each pattern are pairwise disjoint
    (digits/dots vs whitespace vs the letters g,k,m,l,x), so the greedy
    quantifiers never need to backtrack: if the greedy parse fails at a given
    start position, every shorter parse fails as well, and the JS engine moves
    the start position one character right, exactly as scanMatch does.
-/

/-- A JS number: either NaN or a finite rational. -/
inductive JSNum where
  | nan : JSNum
  | num : ℚ → JSNum
deriving DecidableEq, Repr

/-- A JSON scalar as found in raw provider payload fields that the code feeds
to toNumber: a string or a (finite) number. -/
inductive JsValue where
  | str : String → JsValue
  | num : ℚ → JsValue
deriving DecidableEq, Repr

/-- JS truthiness of a nullable number (`null`, `NaN` and `0` are falsy). -/
def jsTruthyNum : Option JSNum → Bool
  | some (JSNum.num q) => q ≠ 0
  | _ => false

/-- JS truthiness of a nullable finite number (`null` and `0` are falsy). -/
def jsTruthyQ : Option ℚ → Bool
  | some q => q ≠ 0
  | none => false

/-- JS multiplication on possibly-NaN numbers. -/
def jsMul : JSNum → JSNum → JSNum
  | JSNum.num a, JSNum.num b => JSNum.num (a * b)
  | _, _ => JSNum.nan

/-- Division of a possibly-NaN number by 1000 (used by unitToKg for g and ml). -/
def jsDiv1000 : JSNum → JSNum
  | JSNum.num a => JSNum.num (a / 1000)
  | JSNum.nan => JSNum.nan

/-- ASCII lowercasing, the model of String.prototype.toLowerCase on the ASCII
strings the server compares against. -/
def jsLower (s : String) : String := String.mk (s.data.map Char.toLower)

/-- Character class [\d.] of the size regexes. -/
def isAmtChar (c : Char) : Bool := c.isDigit || c = '.'

/-- Character class \s (the inputs of interest only use ASCII whitespace). -/
def isSpaceChar (c : Char) : Bool := c.isWhitespace

/-- Character class \w, used for the \b boundary test. -/
def isWordChar (c : Char) : Bool := c.isAlpha || c.isDigit || c = '_'

/-- The \b test after the unit: ok iff at end of input or the next character is
not a word character (the character before is always a unit letter). -/
def boundaryOk : List Char → Bool
  | [] => true
  | c :: _ => !isWordChar c

/-- Numeric value of a digit string (Number on a string matched by \d+ ). -/
def natOfDigits (cs : List Char) : ℕ :=
  cs.foldl (fun acc c => 10 * acc + (c.toNat - '0'.toNat)) 0

/-- Number(s) for a nonempty string s drawn from [\d.]+ : NaN when s has two
or more dots or no digit at all, otherwise the decimal value. -/
def numOfDigitsDots (cs : List Char) : JSNum :=
  if cs.count '.' ≥ 2 ∨ ¬ cs.any Char.isDigit then JSNum.nan
  else
    JSNum.num ((natOfDigits (cs.takeWhile Char.isDigit) : ℚ) +
      (natOfDigits (((cs.dropWhile Char.isDigit).drop 1)) : ℚ) /
        (10 : ℚ) ^ ((cs.dropWhile Char.isDigit).drop 1).length)

/-- The fractional digits of the leading float literal of a digits-and-dots
string: the digits right after the first dot, if that dot follows the leading
digits. -/
def fracDigits (cs : List Char) : List Char :=
  match cs.dropWhile Char.isDigit with
  | '.' :: r2 => r2.takeWhile Char.isDigit
  | _ => []

/-- parseFloat(s) for a string s consisting only of digits and dots (the shape
toNumber produces after stripping): parseFloat reads the longest leading
float literal, i.e. everything up to a second dot; none models NaN. -/
def parseFloatDD (cs : List Char) : Option ℚ :=
  if (cs.takeWhile Char.isDigit).isEmpty ∧ (fracDigits cs).isEmpty then none
  else some ((natOfDigits (cs.takeWhile Char.isDigit) : ℚ) +
    (natOfDigits (fracDigits cs) : ℚ) / (10 : ℚ) ^ (fracDigits cs).length)

/-- The alternation (g|kg|ml|l) under the /i flag, anchored at the current
position; returns the matched characters as written and the remainder.  The
JS alternatives are tried left to right; dispatching on the first character
is equivalent because no alternative is a proper prefix of a later one that
could start with the same letter. -/
def matchUnit : List Char → Option (List Char × List Char)
  | [] => none
  | c :: rest =>
    if c.toLower = 'g' then some ([c], rest)
    else if c.toLower = 'k' then
      match rest with
      | c2 :: r2 => if c2.toLower = 'g' then some ([c, c2], r2) else none
      | [] => none
    else if c.toLower = 'm' then
      match rest with
      | c2 :: r2 => if c2.toLower = 'l' then some ([c, c2], r2) else none
      | [] => none
    else if c.toLower = 'l' then some ([c], rest)
    else none

/-- Attempt of the single pattern ([\d.]+)\s*(g|kg|ml|l)\b at one position;
returns (amount characters, unit characters). -/
def matchSingleAt (cs : List Char) : Option (List Char × List Char) :=
  let amt := cs.takeWhile isAmtChar
  let r1 := cs.dropWhile isAmtChar
  if amt.isEmpty then none
  else
    let r2 := r1.dropWhile isSpaceChar
    match matchUnit r2 with
    | some (u, r3) => if boundaryOk r3 then some (amt, u) else none
    | none => none

/-- Attempt of the multi-pack pattern (\d+)\s*x\s*([\d.]+)\s*(g|kg|ml|l)\b at
one position; returns (count characters, amount characters, unit characters). -/
def matchMultiAt (cs : List Char) : Option (List Char × List Char × List Char) :=
  let n := cs.takeWhile Char.isDigit
  let r1 := cs.dropWhile Char.isDigit
  if n.isEmpty then none
  else
    match r1.dropWhile isSpaceChar with
    | x :: r3 =>
      if x.toLower = 'x' then
        let r4 := r3.dropWhile isSpaceChar
        let amt := r4.takeWhile isAmtChar
        let r5 := r4.dropWhile isAmtChar
        if amt.isEmpty then none
        else
          let r6 := r5.dropWhile isSpaceChar
          match matchUnit r6 with
          | some (u, r7) => if boundaryOk r7 then some (n, amt, u) else none
          | none => none
      else none
    | [] => none

/-- String.prototype.match: try the pattern at every start position from the
left; the first position where it succeeds gives the match. -/
def scanMatch {α : Type} (f : List Char → Option α) : List Char → Option α
  | [] => none
  | c :: rest =>
    match f (c :: rest) with
    | some r => some r
    | none => scanMatch f rest

/-- unitToKg from src/server.js line 51: g→q/1000, kg→q, ml→q/1000, l→q,
case-insensitively; any other unit → null. -/
def unitToKg (q : JSNum) (u : String) : Option JSNum :=
  let ul := jsLower u
  if ul = "g" then some (jsDiv1000 q)
  else if ul = "kg" then some q
  else if ul = "ml" then some (jsDiv1000 q)
  else if ul = "l" then some q
  else none

/-- sizeToKg from src/server.js lines 52-58: first the multi-pack regex, then
the single regex, else null.  In the multi-pack branch JS evaluates
`Number(m[1]) * unitToKg(...)`; unitToKg cannot return null there (the regex
restricts the unit), and JS would coerce null to 0, hence the getD. -/
def sizeToKg (s : String) : Option JSNum :=
  match scanMatch matchMultiAt s.data with
  | some (n, amt, u) =>
      some (jsMul (JSNum.num (natOfDigits n))
        ((unitToKg (numOfDigitsDots amt) (String.mk u)).getD (JSNum.num 0)))
  | none =>
    match scanMatch matchSingleAt s.data with
    | some (amt, u) => unitToKg (numOfDigitsDots amt) (String.mk u)
    | none => none

/-- Reference definition of the unit parser, written from the specification
text: try the multi-pack pattern N x amount unit first and return
N × unitToKg(amount, unit); otherwise try the single pattern amount unit and
return unitToKg(amount, unit); otherwise null. -/
def sizeToKg_spec (s : String) : Option JSNum :=
  match scanMatch matchMultiAt s.data with
  | some (n, amt, u) =>
      some (jsMul (JSNum.num (natOfDigits n))
        ((unitToKg (numOfDigitsDots amt) (String.mk u)).getD (JSNum.num 0)))
  | none =>
    match scanMatch matchSingleAt s.data with
    | some (amt, u) => unitToKg (numOfDigitsDots amt) (String.mk u)
    | none => none

/-- toNumber from src/server.js lines 46-50.  The argument is a nullable JSON
scalar; none models both null and undefined.  For a string the code strips
every character outside [\d.] and applies parseFloat; for a number, Number(v)
is v itself and is finite in the JSON-derived payloads being modelled. -/
def toNumber : Option JsValue → Option ℚ
  | none => none
  | some (JsValue.num q) => some q
  | some (JsValue.str s) => parseFloatDD (s.data.filter isAmtChar)

/-- Unfolding of sizeToKg when the multi-pack regex matches. -/
theorem sizeToKg_multi_eq (s : String) (n amt u : List Char)
    (h : scanMatch matchMultiAt s.data = some (n, amt, u)) :
    sizeToKg s = some (jsMul (JSNum.num (natOfDigits n))
      ((unitToKg (numOfDigitsDots amt) (String.mk u)).getD (JSNum.num 0))) := by
  unfold sizeToKg
  rw [h]

/-- Unfolding of sizeToKg when only the single regex matches. -/
theorem sizeToKg_single_eq (s : String) (amt u : List Char)
    (h1 : scanMatch matchMultiAt s.data = none)
    (h2 : scanMatch matchSingleAt s.data = some (amt, u)) :
    sizeToKg s = unitToKg (numOfDigitsDots amt) (String.mk u) := by
  unfold sizeToKg
  rw [h1, h2]

/-- Evaluation of numOfDigitsDots through its integral part, fractional part
and fractional length. -/
theorem numOfDigitsDots_eq (cs : List Char) (i f k : ℕ)
    (h1 : ¬(cs.count '.' ≥ 2 ∨ ¬ cs.any Char.isDigit))
    (h2 : natOfDigits (cs.takeWhile Char.isDigit) = i)
    (h3 : natOfDigits ((cs.dropWhile Char.isDigit).drop 1) = f)
    (h4 : ((cs.dropWhile Char.isDigit).drop 1).length = k) :
    numOfDigitsDots cs = JSNum.num ((i : ℚ) + (f : ℚ) / (10 : ℚ) ^ k) := by
  rw [numOfDigitsDots, if_neg h1, h2, h3, h4]

/-- unitToKg on a string lowercasing to g. -/
theorem unitToKg_g (q : JSNum) (u : String) (h : jsLower u = "g") :
    unitToKg q u = some (jsDiv1000 q) := by
  rw [unitToKg, h]
  rfl

/-- unitToKg on a string lowercasing to kg. -/
theorem unitToKg_kg (q : JSNum) (u : String) (h : jsLower u = "kg") :
    unitToKg q u = some q := by
  rw [unitToKg, h]
  rfl

/-- unitToKg on a string lowercasing to ml. -/
theorem unitToKg_ml (q : JSNum) (u : String) (h : jsLower u = "ml") :
    unitToKg q u = some (jsDiv1000 q) := by
  rw [unitToKg, h]
  simp

/-- unitToKg on a string lowercasing to l. -/
theorem unitToKg_l (q : JSNum) (u : String) (h : jsLower u = "l") :
    unitToKg q u = some q := by
  rw [unitToKg, h]
  simp

/-- C1: the unit parser sizeToKg equals the reference definition (multi-pack
pattern first, then the single pattern, else null, with unitToKg mapping
g→amount/1000, kg→amount, ml→amount/1000, l→amount case-insensitively and null
on any other unit); "6 x 250g" → 1.5, "1.5kg" → 1.5, "500ml" → 0.5, "2L" → 2,
"" and "assorted" → null, and the multi-pack pattern takes precedence when both
patterns occur ("250g and 6 x 100g" → 0.6 from the multi-pack part). -/
theorem claim_c1 :
    (∀ s, sizeToKg s = sizeToKg_spec s) ∧
    (∀ q u, unitToKg q u =
      if jsLower u = "g" then some (jsDiv1000 q)
      else if jsLower u = "kg" then some q
      else if jsLower u = "ml" then some (jsDiv1000 q)
      else if jsLower u = "l" then some q
      else none) ∧
    sizeToKg "6 x 250g" = some (JSNum.num (3/2)) ∧
    sizeToKg "1.5kg" = some (JSNum.num (3/2)) ∧
    sizeToKg "500ml" = some (JSNum.num (1/2)) ∧
    sizeToKg "2L" = some (JSNum.num 2) ∧
    sizeToKg "" = none ∧
    sizeToKg "assorted" = none ∧
    sizeToKg "250g and 6 x 100g" = some (JSNum.num (3/5)) := by
  refine ⟨fun s => rfl, fun q u => rfl, ?_, ?_, ?_, ?_, by decide, by decide, ?_⟩
  · rw [sizeToKg_multi_eq "6 x 250g" ['6'] ['2','5','0'] ['g'] (by decide),
        numOfDigitsDots_eq ['2','5','0'] 250 0 0 (by decide) (by decide) (by decide) (by decide),
        show natOfDigits ['6'] = 6 from by decide,
        unitToKg_g _ _ (by decide)]
    simp only [Option.getD, jsDiv1000, jsMul]
    norm_num
  · rw [sizeToKg_single_eq "1.5kg" ['1','.','5'] ['k','g'] (by decide) (by decide),
        numOfDigitsDots_eq ['1','.','5'] 1 5 1 (by decide) (by decide) (by decide) (by decide),
        unitToKg_kg _ _ (by decide)]
    norm_num
  · rw [sizeToKg_single_eq "500ml" ['5','0','0'] ['m','l'] (by decide) (by decide),
        numOfDigitsDots_eq ['5','0','0'] 500 0 0 (by decide) (by decide) (by decide) (by decide),
        unitToKg_ml _ _ (by decide)]
    simp only [jsDiv1000]
    norm_num
  · rw [sizeToKg_single_eq "2L" ['2'] ['L'] (by decide) (by decide),
        numOfDigitsDots_eq ['2'] 2 0 0 (by decide) (by decide) (by decide) (by decide),
        unitToKg_l _ _ (by decide)]
    norm_num
  · rw [sizeToKg_multi_eq "250g and 6 x 100g" ['6'] ['1','0','0'] ['g'] (by decide),
        numOfDigitsDots_eq ['1','0','0'] 100 0 0 (by decide) (by decide) (by decide) (by decide),
        show natOfDigits ['6'] = 6 from by decide,
        unitToKg_g _ _ (by decide)]
    simp only [Option.getD, jsDiv1000, jsMul]
    norm_num

/-- Evaluation of parseFloatDD through its integral part, fractional part and
fractional length. -/
theorem parseFloatDD_eq (cs : List Char) (i f k : ℕ)
    (h1 : ¬((cs.takeWhile Char.isDigit).isEmpty ∧ (fracDigits cs).isEmpty))
    (h2 : natOfDigits (cs.takeWhile Char.isDigit) = i)
    (h3 : natOfDigits (fracDigits cs) = f)
    (h4 : (fracDigits cs).length = k) :
    parseFloatDD cs = some ((i : ℚ) + (f : ℚ) / (10 : ℚ) ^ k) := by
  rw [parseFloatDD, if_neg h1, h2, h3, h4]

/-- C6: toNumber returns a numeric input unchanged (all numbers in the
JSON-derived payloads are finite); for a text input it strips every character
that is not a digit or a decimal point and parses the remainder; it returns
null for an absent input or a non-finite parse.  toNumber("$4.50") = 4.5,
toNumber(null) = null, toNumber("abc") = null. -/
theorem claim_c6 :
    (∀ q : ℚ, toNumber (some (JsValue.num q)) = some q) ∧
    (∀ s : String, toNumber (some (JsValue.str s)) =
      parseFloatDD (s.data.filter isAmtChar)) ∧
    toNumber none = none ∧
    toNumber (some (JsValue.str "$4.50")) = some (9/2) ∧
    toNumber (some (JsValue.str "abc")) = none := by
  refine ⟨fun q => rfl, fun s => rfl, rfl, ?_, by decide⟩
  show parseFloatDD ("$4.50".data.filter isAmtChar) = some (9/2)
  rw [show "$4.50".data.filter isAmtChar = ['4', '.', '5', '0'] from by decide,
      parseFloatDD_eq ['4', '.', '5', '0'] 4 50 2 (by decide) (by decide) (by decide) (by decide)]
  norm_num

/-- The canonical Product Record produced by the normalizer inside
callStoreSearch (src/server.js lines 100-107). -/
structure ProductRecord where
  product : String
  size : String
  price : Option ℚ
  pricePerKg : Option ℚ
  url : String
  id : String
deriving DecidableEq, Repr

/-- A raw provider record after camelcase-keys: the fields the normalizer
probes (any other field is irrelevant to the output).  String-typed fields
model name/size/link/id candidates; the price candidates can be a string or a
number.  none models an absent (or null) field.  The field named Price mirrors
the obj.Price probe in the source, although after camelCase that key can no
longer occur. -/
structure RawRecord where
  productName : Option String := none
  name : Option String := none
  productSize : Option String := none
  packageSize : Option String := none
  size : Option String := none
  currentPrice : Option JsValue := none
  price : Option JsValue := none
  Price : Option JsValue := none
  productUrl : Option String := none
  url : Option String := none
  link : Option String := none
  productId : Option String := none
  id : Option String := none
  sku : Option String := none
deriving DecidableEq, Repr

/-- The JS expression a || b || ... || two-quotes on nullable strings: the
first truthy candidate (absent and empty-string candidates are skipped), else
the empty string. -/
def jsOrStrs (cands : List (Option String)) : String :=
  cands.foldr (fun o acc =>
    match o with
    | some s => if s = "" then acc else s
    | none => acc) ""

/-- The JS expression a ?? b ?? c: the first present (non-nullish) candidate. -/
def jsNullish (cands : List (Option JsValue)) : Option JsValue :=
  cands.findSome? id

/-- The model of +(x).toFixed(2): rounding to 2 decimal places (ties modelled
as rounding half up, the behaviour of toFixed away from the float-representation
corner cases). -/
def round2 (x : ℚ) : ℚ := ((⌊x * 100 + 1 / 2⌋ : ℤ) : ℚ) / 100

/-- The derived unit price: the JS expression
(kg && price) ? +(price / kg).toFixed(2) : null.  kg is truthy iff it is a
number that is neither NaN nor 0; price is truthy iff it is a nonzero
number. -/
def derivePricePerKg (kg : Option JSNum) (price : Option ℚ) : Option ℚ :=
  match kg, price with
  | some (JSNum.num k), some p =>
    if k ≠ 0 ∧ p ≠ 0 then some (round2 (p / k)) else none
  | _, _ => none

/-- derivePricePerKg on a null kilogram equivalent. -/
theorem derivePricePerKg_none_kg (p : Option ℚ) : derivePricePerKg none p = none := by
  cases p <;> rfl

/-- derivePricePerKg on a NaN kilogram equivalent. -/
theorem derivePricePerKg_nan (p : Option ℚ) : derivePricePerKg (some JSNum.nan) p = none := by
  cases p <;> rfl

/-- derivePricePerKg on a null price. -/
theorem derivePricePerKg_none_price (kg : Option JSNum) : derivePricePerKg kg none = none := by
  rcases kg with _ | j
  · rfl
  · rcases j with _ | k <;> rfl

/-- derivePricePerKg on a numeric kilogram equivalent and a present price. -/
theorem derivePricePerKg_num (k p : ℚ) :
    derivePricePerKg (some (JSNum.num k)) (some p) =
      if k ≠ 0 ∧ p ≠ 0 then some (round2 (p / k)) else none := rfl

/-- The record normalizer from src/server.js lines 93-107. -/
def normalizeRecord (raw : RawRecord) : ProductRecord :=
  let sizeS := jsOrStrs [raw.productSize, raw.packageSize, raw.size]
  let kg := sizeToKg sizeS
  let price := toNumber (jsNullish [raw.currentPrice, raw.price, raw.Price])
  let link := jsOrStrs [raw.productUrl, raw.url, raw.link]
  let pid := jsOrStrs [raw.productId, raw.id, raw.sku]
  { product := jsOrStrs [raw.productName, raw.name]
    size := sizeS
    price := price
    pricePerKg := derivePricePerKg kg price
    url := link
    id := pid }

/-- The size field of a normalized record is the probed size text. -/
theorem normalize_size (raw : RawRecord) :
    (normalizeRecord raw).size = jsOrStrs [raw.productSize, raw.packageSize, raw.size] := rfl

/-- The price field of a normalized record is the coerced probed price. -/
theorem normalize_price (raw : RawRecord) :
    (normalizeRecord raw).price = toNumber (jsNullish [raw.currentPrice, raw.price, raw.Price]) := rfl

/-- The pricePerKg field of a normalized record, in terms of the record's own
size and price fields. -/
theorem normalize_pricePerKg (raw : RawRecord) :
    (normalizeRecord raw).pricePerKg =
      derivePricePerKg (sizeToKg (normalizeRecord raw).size) (normalizeRecord raw).price := rfl

/-- The raw payload of the round-trip example: price 10 and size "2kg". -/
def rawPrice10Size2kg : RawRecord :=
  { currentPrice := some (JsValue.num 10), productSize := some "2kg" }

/-- C2: pricePerKg is non-null only if price is non-null and the size string
parsed to a (nonzero, non-NaN) kilogram equivalent, and a non-null pricePerKg
equals price divided by that kilogram equivalent rounded to 2 decimal places;
the record built from price 10 and size "2kg" has pricePerKg 5.00, and a
record with null price has null pricePerKg. -/
theorem claim_c2 : ∀ raw : RawRecord,
    ((normalizeRecord raw).pricePerKg ≠ none →
      (normalizeRecord raw).price ≠ none ∧
      ∃ k : ℚ, sizeToKg (normalizeRecord raw).size = some (JSNum.num k) ∧ k ≠ 0 ∧
        (normalizeRecord raw).pricePerKg = some (round2 ((normalizeRecord raw).price.getD 0 / k))) ∧
    (normalizeRecord rawPrice10Size2kg).pricePerKg = some 5 ∧
    ((normalizeRecord raw).price = none → (normalizeRecord raw).pricePerKg = none) := by
  intro raw
  refine ⟨?_, ?_, ?_⟩
  · intro h
    rw [normalize_pricePerKg] at h ⊢
    rcases hk : sizeToKg (normalizeRecord raw).size with _ | k
    · rw [hk, derivePricePerKg_none_kg] at h
      exact absurd rfl h
    · rw [hk] at h
      rcases hp : (normalizeRecord raw).price with _ | p
      · rw [hp, derivePricePerKg_none_price] at h
        exact absurd rfl h
      · rw [hp] at h
        rcases k with _ | kq
        · rw [derivePricePerKg_nan] at h
          exact absurd rfl h
        · rw [derivePricePerKg_num] at h
          by_cases hz : kq ≠ 0 ∧ p ≠ 0
          · refine ⟨by simp, kq, rfl, hz.1, ?_⟩
            rw [derivePricePerKg_num, if_pos hz, Option.getD_some]
          · rw [if_neg hz] at h
            exact absurd rfl h
  · rw [normalize_pricePerKg,
        show (normalizeRecord rawPrice10Size2kg).size = "2kg" from rfl,
        show (normalizeRecord rawPrice10Size2kg).price = some 10 from rfl,
        sizeToKg_single_eq "2kg" ['2'] ['k','g'] (by decide) (by decide),
        numOfDigitsDots_eq ['2'] 2 0 0 (by decide) (by decide) (by decide) (by decide),
        unitToKg_kg _ _ (by decide)]
    have h2 : ((2 : ℕ) : ℚ) + (0 : ℕ) / (10 : ℚ) ^ (0 : ℕ) = 2 := by norm_num
    rw [h2]
    rw [derivePricePerKg_num]
    have hz : (2 : ℚ) ≠ 0 ∧ (10 : ℚ) ≠ 0 := by norm_num
    rw [if_pos hz]
    have : round2 ((10 : ℚ) / 2) = 5 := by
      rw [round2, show ⌊(10 : ℚ) / 2 * 100 + 1 / 2⌋ = (500 : ℤ) from by
        rw [Int.floor_eq_iff]
        norm_num]
      norm_num
    rw [this]
  · intro h
    rw [normalize_pricePerKg, h, derivePricePerKg_none_price]

/-- Witness for C2 at the concrete payload with price 10 and size "2kg" (for
the first hypothesis) and a payload with no price candidate at all (for the
last hypothesis). -/
theorem claim_c2_witness :
    ((normalizeRecord rawPrice10Size2kg).price ≠ none ∧
      ∃ k : ℚ, sizeToKg (normalizeRecord rawPrice10Size2kg).size = some (JSNum.num k) ∧ k ≠ 0 ∧
        (normalizeRecord rawPrice10Size2kg).pricePerKg =
          some (round2 ((normalizeRecord rawPrice10Size2kg).price.getD 0 / k))) ∧
    (normalizeRecord { productName := some "NoPrice" : RawRecord }).pricePerKg = none := by
  constructor
  · exact (claim_c2 rawPrice10Size2kg).1 (by rw [(claim_c2 rawPrice10Size2kg).2.1]; simp)
  · exact (claim_c2 { productName := some "NoPrice" }).2.2 rfl

/-- C9: a coerced price of 0 or a parsed kilogram equivalent of 0 makes the
normalized pricePerKg null — the truthiness guard (kg && price) prevents the
division from ever being performed with a zero operand, even when the price is
non-null and the size string parsed successfully. -/
theorem claim_c9 : ∀ raw : RawRecord,
    (normalizeRecord raw).price = some 0 ∨
      sizeToKg (normalizeRecord raw).size = some (JSNum.num 0) →
    (normalizeRecord raw).pricePerKg = none := by
  intro raw h
  rw [normalize_pricePerKg]
  rcases h with h | h
  · rw [h]
    rcases hk : sizeToKg (normalizeRecord raw).size with _ | k
    · rw [derivePricePerKg_none_kg]
    · rcases k with _ | kq
      · rw [derivePricePerKg_nan]
      · rw [derivePricePerKg_num, if_neg]
        intro hz
        exact hz.2 rfl
  · rw [h]
    rcases hp : (normalizeRecord raw).price with _ | p
    · rw [derivePricePerKg_none_price]
    · rw [derivePricePerKg_num, if_neg]
      intro hz
      exact hz.1 rfl

/-- Witness for C9: a payload with price 0 (and a parsing size) and a payload
with price 5 and size "0g" (zero kilogram equivalent) both yield a null
pricePerKg. -/
theorem claim_c9_witness :
    (normalizeRecord { currentPrice := some (JsValue.num 0), productSize := some "2kg" }).pricePerKg
        = none ∧
    (normalizeRecord { currentPrice := some (JsValue.num 5), productSize := some "0g" }).pricePerKg
        = none := by
  constructor
  · exact claim_c9 _ (Or.inl rfl)
  · refine claim_c9 _ (Or.inr ?_)
    show sizeToKg "0g" = some (JSNum.num 0)
    rw [sizeToKg_single_eq "0g" ['0'] ['g'] (by decide) (by decide),
        numOfDigitsDots_eq ['0'] 0 0 0 (by decide) (by decide) (by decide) (by decide),
        unitToKg_g _ _ (by decide)]
    simp only [jsDiv1000]
    norm_num

/-- The probe the specification text describes: the first present candidate
value, with no truthiness test. -/
def probeFirstPresent {α : Type} (cands : List (Option α)) : Option α :=
  cands.findSome? id

/-- The probe the code performs for the string-typed attributes: the first
truthy candidate (a present but empty string is skipped). -/
def probeFirstTruthy (cands : List (Option String)) : String :=
  (cands.findSome? (fun o => o.bind (fun s => if s = "" then none else some s))).getD ""

/-- The || chain of the source equals the first-truthy probe. -/
theorem jsOrStrs_eq_probeFirstTruthy (cands : List (Option String)) :
    jsOrStrs cands = probeFirstTruthy cands := by
  induction cands with
  | nil => rfl
  | cons o rest ih =>
    rcases o with _ | s
    · rw [jsOrStrs, List.foldr_cons]
      rw [jsOrStrs] at ih
      rw [ih, probeFirstTruthy, probeFirstTruthy, List.findSome?_cons]
      rfl
    · by_cases hs : s = ""
      · subst hs
        rw [jsOrStrs, List.foldr_cons]
        rw [jsOrStrs] at ih
        simp only [if_pos rfl]
        rw [ih, probeFirstTruthy, probeFirstTruthy, List.findSome?_cons]
        rfl
      · rw [jsOrStrs, List.foldr_cons]
        simp only [if_neg hs]
        rw [probeFirstTruthy, List.findSome?_cons]
        simp only [Option.some_bind, if_neg hs, Option.getD_some]

/-- C7 counterexample: the claim says the normalizer takes the first present
candidate value, but on a payload whose productName is present and equal to
the empty string with name "Foo", the code's || probe skips the empty string
and produces "Foo", while the first present candidate is the empty string. -/
theorem claim_c7_counterexample :
    (normalizeRecord { productName := some "", name := some "Foo" }).product = "Foo" ∧
    probeFirstPresent
      [(({ productName := some "", name := some "Foo" } : RawRecord)).productName,
        (({ productName := some "", name := some "Foo" } : RawRecord)).name] = some "" := by
  constructor <;> rfl

/-- C7 (amended): the normalizer probes the ordered candidate lists of the
claim, taking the first truthy value for the string-typed attributes name,
size, link and id (a present but empty string is skipped) and the first
present value for the raw price; a record whose candidates are all missing
degrades to empty strings and null price rather than failing. -/
theorem claim_c7 : ∀ raw : RawRecord,
    ((normalizeRecord raw).product = probeFirstTruthy [raw.productName, raw.name] ∧
      (normalizeRecord raw).size = probeFirstTruthy [raw.productSize, raw.packageSize, raw.size] ∧
      (normalizeRecord raw).price =
        toNumber (probeFirstPresent [raw.currentPrice, raw.price, raw.Price]) ∧
      (normalizeRecord raw).url = probeFirstTruthy [raw.productUrl, raw.url, raw.link] ∧
      (normalizeRecord raw).id = probeFirstTruthy [raw.productId, raw.id, raw.sku]) ∧
    normalizeRecord {} =
      { product := "", size := "", price := none, pricePerKg := none, url := "", id := "" } := by
  intro raw
  refine ⟨⟨?_, ?_, rfl, ?_, ?_⟩, rfl⟩ <;>
    exact jsOrStrs_eq_probeFirstTruthy _

/-- One step of the JS reduce((best, p) => (!best || f(p) < f(best)) ? p : best,
null) reductions of the /cheapest handler. -/
def jsStep {α : Type} {β : Type} [LinearOrder β] (f : α → β) (best : Option α) (p : α) :
    Option α :=
  match best with
  | none => some p
  | some b => if f p < f b then some p else some b

/-- The JS reduce of the /cheapest handler: fold the step over the list,
starting from null. -/
def jsReduceMin {α : Type} {β : Type} [LinearOrder β] (f : α → β) (l : List α) : Option α :=
  l.foldl (jsStep f) none

/-- The running best of the reduce once it is non-null. -/
def goMin {α : Type} {β : Type} [LinearOrder β] (f : α → β) (b : α) : List α → α
  | [] => b
  | p :: l => goMin f (if f p < f b then p else b) l

/-- Specification-side reduction: the first element of the list attaining the
minimum of f — an element strictly later in the list replaces the current
winner only when its key is strictly smaller. -/
def firstMinBy {α : Type} {β : Type} [LinearOrder β] (f : α → β) : List α → Option α
  | [] => none
  | p :: l =>
    match firstMinBy f l with
    | none => some p
    | some b => if f b < f p then some b else some p

/-- A foldl of the step from a non-null accumulator is goMin. -/
theorem foldl_jsStep_some {α : Type} {β : Type} [LinearOrder β] (f : α → β) :
    ∀ (l : List α) (b : α), l.foldl (jsStep f) (some b) = some (goMin f b l) := by
  intro l
  induction l with
  | nil => intro b; rfl
  | cons p rest ih =>
    intro b
    rw [List.foldl_cons]
    show List.foldl (jsStep f) (if f p < f b then some p else some b) rest =
      some (goMin f (if f p < f b then p else b) rest)
    by_cases hpb : f p < f b
    · rw [if_pos hpb, if_pos hpb, ih]
    · rw [if_neg hpb, if_neg hpb, ih]

/-- goMin expressed through the specification-side reduction of the tail. -/
theorem goMin_eq {α : Type} {β : Type} [LinearOrder β] (f : α → β) :
    ∀ (l : List α) (b : α), goMin f b l =
      match firstMinBy f l with
      | none => b
      | some r => if f r < f b then r else b := by
  intro l
  induction l with
  | nil => intro b; rfl
  | cons p rest ih =>
    intro b
    show goMin f (if f p < f b then p else b) rest =
      (match firstMinBy f (p :: rest) with
       | none => b
       | some r => if f r < f b then r else b)
    rw [ih, show firstMinBy f (p :: rest) =
      (match firstMinBy f rest with
       | none => some p
       | some b2 => if f b2 < f p then some b2 else some p) from rfl]
    rcases hr : firstMinBy f rest with _ | r
    · rfl
    · by_cases h2 : f r < f p
      · by_cases h1 : f p < f b
        · simp only [if_pos h1, if_pos h2, if_pos (lt_trans h2 h1)]
        · simp only [if_neg h1, if_pos h2]
      · by_cases h1 : f p < f b
        · simp only [if_pos h1, if_neg h2]
        · have h3 : ¬ f r < f b := fun h => h2 (lt_of_lt_of_le h (le_of_not_lt h1))
          simp only [if_neg h1, if_neg h2, if_neg h3]

/-- The JS reduce of the /cheapest handler computes exactly the first element
attaining the minimal key. -/
theorem jsReduceMin_eq_firstMinBy {α : Type} {β : Type} [LinearOrder β] (f : α → β)
    (l : List α) : jsReduceMin f l = firstMinBy f l := by
  cases l with
  | nil => rfl
  | cons p rest =>
    rw [jsReduceMin, List.foldl_cons, show jsStep f none p = some p from rfl,
        foldl_jsStep_some, goMin_eq, show firstMinBy f (p :: rest) =
      (match firstMinBy f rest with
       | none => some p
       | some b2 => if f b2 < f p then some b2 else some p) from rfl]
    rcases hr : firstMinBy f rest with _ | r
    · rfl
    · by_cases h2 : f r < f p
      · simp only [if_pos h2]
      · simp only [if_neg h2]

/-- firstMinBy is null exactly on the empty list. -/
theorem firstMinBy_none_iff {α : Type} {β : Type} [LinearOrder β] (f : α → β)
    (l : List α) : firstMinBy f l = none ↔ l = [] := by
  cases l with
  | nil => simp [firstMinBy]
  | cons p rest =>
    rw [show firstMinBy f (p :: rest) =
      (match firstMinBy f rest with
       | none => some p
       | some b2 => if f b2 < f p then some b2 else some p) from rfl]
    rcases firstMinBy f rest with _ | r
    · simp
    · by_cases h2 : f r < f p <;> simp [h2]

/-- A firstMinBy winner is an element of the list. -/
theorem firstMinBy_mem {α : Type} {β : Type} [LinearOrder β] (f : α → β) :
    ∀ (l : List α) (r : α), firstMinBy f l = some r → r ∈ l := by
  intro l
  induction l with
  | nil => intro r h; exact absurd h (by simp [firstMinBy])
  | cons p rest ih =>
    intro r h
    rw [show firstMinBy f (p :: rest) =
      (match firstMinBy f rest with
       | none => some p
       | some b2 => if f b2 < f p then some b2 else some p) from rfl] at h
    rcases hr : firstMinBy f rest with _ | b2 <;> rw [hr] at h
    · have hpr : p = r := Option.some.inj h
      exact hpr ▸ List.mem_cons_self p rest
    · have h3 : (if f b2 < f p then some b2 else some p) = some r := h
      by_cases h2 : f b2 < f p
      · rw [if_pos h2] at h3
        exact List.mem_cons_of_mem p (Option.some.inj h3 ▸ ih b2 hr)
      · rw [if_neg h2] at h3
        exact Option.some.inj h3 ▸ List.mem_cons_self p rest

/-- A firstMinBy winner has the minimal key of the list. -/
theorem firstMinBy_min {α : Type} {β : Type} [LinearOrder β] (f : α → β) :
    ∀ (l : List α) (r : α), firstMinBy f l = some r → ∀ q ∈ l, f r ≤ f q := by
  intro l
  induction l with
  | nil => intro r h; exact absurd h (by simp [firstMinBy])
  | cons p rest ih =>
    intro r h q hq
    rw [show firstMinBy f (p :: rest) =
      (match firstMinBy f rest with
       | none => some p
       | some b2 => if f b2 < f p then some b2 else some p) from rfl] at h
    rcases hr : firstMinBy f rest with _ | b2 <;> rw [hr] at h
    · have hpr : p = r := Option.some.inj h
      rcases List.mem_cons.mp hq with hq | hq
      · exact le_of_eq (by rw [← hpr, hq])
      · exact absurd ((firstMinBy_none_iff f rest).mp hr ▸ hq) (List.not_mem_nil q)
    · have h3 : (if f b2 < f p then some b2 else some p) = some r := h
      by_cases h2 : f b2 < f p
      · rw [if_pos h2] at h3
        have hbr : b2 = r := Option.some.inj h3
        rcases List.mem_cons.mp hq with hq | hq
        · exact hbr ▸ hq ▸ le_of_lt h2
        · exact hbr ▸ ih b2 hr q hq
      · rw [if_neg h2] at h3
        have hpr : p = r := Option.some.inj h3
        rcases List.mem_cons.mp hq with hq | hq
        · exact le_of_eq (by rw [← hpr, hq])
        · exact hpr ▸ le_trans (le_of_not_lt h2) (ih b2 hr q hq)

/-- The byItem reduction key: (p.price ?? Infinity), with Infinity as the top
element (no finite price compares equal to it). -/
def priceKeyInf (p : ProductRecord) : WithTop ℚ :=
  match p.price with
  | none => ⊤
  | some q => (q : WithTop ℚ)

/-- The byKg reduction key.  The /cheapest handler compares p.pricePerKg
directly; the withKg filter guarantees the field is present, so the default
value of the model is never reached (it also matches the JS coercion of null
to 0 in a relational comparison). -/
def kgKey (p : ProductRecord) : ℚ := p.pricePerKg.getD 0

/-- The comparison step of GET /cheapest (src/server.js lines 138-142): merge
the two normalized lists (first provider first), drop records with null price
(every record object is truthy, so the p && conjunct of the filter never
fires), reduce to the cheapest by price, filter to records with a unit price,
reduce to the cheapest by unit price. -/
def compareLists (coles woolworths : List ProductRecord) :
    Option ProductRecord × Option ProductRecord :=
  let all := (coles ++ woolworths).filter (fun p => p.price.isSome)
  let withKg := all.filter (fun p => p.pricePerKg.isSome)
  (jsReduceMin priceKeyInf all, jsReduceMin kgKey withKg)

/-- C3: the /cheapest comparison merges the two normalized lists with the
first provider's records first, drops null-price records, and picks as
cheapest-by-item the first record attaining the minimal price and as
cheapest-by-kg the first record attaining the minimal non-null pricePerKg
among the remaining records; ties go to the record appearing first in the
merged sequence (firstMinBy replaces the current winner only on a strictly
smaller key), and each winner is null exactly when no record qualifies. -/
theorem claim_c3 : ∀ coles woolworths : List ProductRecord,
    compareLists coles woolworths =
      (firstMinBy priceKeyInf ((coles ++ woolworths).filter (fun p => p.price.isSome)),
       firstMinBy kgKey (((coles ++ woolworths).filter (fun p => p.price.isSome)).filter
         (fun p => p.pricePerKg.isSome))) ∧
    ((compareLists coles woolworths).1 = none ↔
      (coles ++ woolworths).filter (fun p => p.price.isSome) = []) ∧
    ((compareLists coles woolworths).2 = none ↔
      ((coles ++ woolworths).filter (fun p => p.price.isSome)).filter
        (fun p => p.pricePerKg.isSome) = []) := by
  intro coles woolworths
  have h1 : compareLists coles woolworths =
      (firstMinBy priceKeyInf ((coles ++ woolworths).filter (fun p => p.price.isSome)),
       firstMinBy kgKey (((coles ++ woolworths).filter (fun p => p.price.isSome)).filter
         (fun p => p.pricePerKg.isSome))) := by
    rw [compareLists]
    rw [jsReduceMin_eq_firstMinBy, jsReduceMin_eq_firstMinBy]
  refine ⟨h1, ?_, ?_⟩
  · rw [h1]
    exact firstMinBy_none_iff priceKeyInf _
  · rw [h1]
    exact firstMinBy_none_iff kgKey _

/-- Lookup in the insertion-ordered map modelling the JS Map. -/
def mapGet {α : Type} : List (String × α) → String → Option α
  | [], _ => none
  | (k2, v) :: rest, k => if k2 = k then some v else mapGet rest k

/-- Map.set: overwrite in place if the key is present, else append. -/
def mapSet {α : Type} : List (String × α) → String → α → List (String × α)
  | [], k, v => [(k, v)]
  | (k2, v2) :: rest, k, v =>
    if k2 = k then (k, v) :: rest else (k2, v2) :: mapSet rest k v

/-- Map.delete: remove the entry with the given key. -/
def mapDelete {α : Type} : List (String × α) → String → List (String × α)
  | [], _ => []
  | (k2, v2) :: rest, k =>
    if k2 = k then mapDelete rest k else (k2, v2) :: mapDelete rest k

/-- mapGet after mapSet on the same key. -/
theorem mapGet_mapSet_self {α : Type} :
    ∀ (c : List (String × α)) (k : String) (v : α), mapGet (mapSet c k v) k = some v := by
  intro c
  induction c with
  | nil => intro k v; simp [mapSet, mapGet]
  | cons e rest ih =>
    intro k v
    by_cases h : e.1 = k
    · rw [show mapSet (e :: rest) k v = mapSet ((e.1, e.2) :: rest) k v from by rw [Prod.mk.eta],
          mapSet, if_pos h, mapGet, if_pos rfl]
    · rw [show mapSet (e :: rest) k v = mapSet ((e.1, e.2) :: rest) k v from by rw [Prod.mk.eta],
          mapSet, if_neg h, mapGet, if_neg h, ih]

/-- mapGet after mapDelete on the same key. -/
theorem mapGet_mapDelete_self {α : Type} :
    ∀ (c : List (String × α)) (k : String), mapGet (mapDelete c k) k = none := by
  intro c
  induction c with
  | nil => intro k; rfl
  | cons e rest ih =>
    intro k
    by_cases h : e.1 = k
    · rw [show mapDelete (e :: rest) k = mapDelete ((e.1, e.2) :: rest) k from by rw [Prod.mk.eta],
          mapDelete, if_pos h, ih]
    · rw [show mapDelete (e :: rest) k = mapDelete ((e.1, e.2) :: rest) k from by rw [Prod.mk.eta],
          mapDelete, if_neg h, mapGet, if_neg h, ih]

/-- A cache entry (src/server.js line 62): an absolute expiry time and the
stored normalized list. -/
structure CacheEntry where
  untilMs : ℕ
  value : List ProductRecord
deriving DecidableEq, Repr

/-- The process-wide response cache table. -/
abbrev CacheMap := List (String × CacheEntry)

/-- putCache from src/server.js line 62: store the value under the key with
expiry now + ttl (default 45000 ms). -/
def putCache (now : ℕ) (k : String) (v : List ProductRecord) (c : CacheMap)
    (ttl : ℕ := 45000) : CacheMap :=
  mapSet c k ⟨now + ttl, v⟩

/-- getCache from src/server.js lines 63-68: a miss returns null; a hit whose
expiry has passed deletes the entry and returns null; otherwise the stored
value is returned.  The second component is the table after the read (the JS
function mutates the shared Map). -/
def getCache (now : ℕ) (k : String) (c : CacheMap) :
    Option (List ProductRecord) × CacheMap :=
  match mapGet c k with
  | none => (none, c)
  | some hit => if now > hit.untilMs then (none, mapDelete c k) else (some hit.value, c)

/-- The provider lookup table getApiInfo from src/server.js lines 34-41. -/
structure ApiInfo where
  host : String
  path : String
deriving DecidableEq, Repr

def getApiInfo (store : String) : Option ApiInfo :=
  let s := jsLower store
  if s = "coles" then
    some ⟨"coles-product-price-api.p.rapidapi.com", "/coles/product-search"⟩
  else if s = "woolworths" then
    some ⟨"woolworths-products-api.p.rapidapi.com", "/woolworths/product-search/"⟩
  else none

/-- The environment of a request: whether RAPIDAPI_KEY is configured, and the
upstream network as a function from (store, query, page, size) to either an
error or the results array of the response body (an absent results field is
already the empty list, as in r.data.results ?? []). -/
structure Env where
  hasKey : Bool
  net : String → String → ℕ → ℕ → Except String (List RawRecord)

/-- The cache key of src/server.js line 75. -/
def cacheKey (store q : String) (page size : ℕ) : String :=
  "S:" ++ store ++ "|q:" ++ q ++ "|p:" ++ toString page ++ "|s:" ++ toString size

/-- callStoreSearch from src/server.js lines 70-112: key check, provider
lookup, cache read, network call, normalization, cache write.  The result
carries the updated cache and the number of upstream network calls issued (0
or 1).  A cached value is an array, always truthy, so a hit returns it even
when it is empty. -/
def callStoreSearch (env : Env) (now : ℕ) (store q : String) (page size : ℕ)
    (c : CacheMap) : Except String (List ProductRecord) × CacheMap × ℕ :=
  if env.hasKey then
    match getApiInfo store with
    | none => (Except.error "store must be coles or woolworths", c, 0)
    | some _ =>
      match getCache now (cacheKey store q page size) c with
      | (some v, c2) => (Except.ok v, c2, 0)
      | (none, c2) =>
        match env.net store q page size with
        | Except.error e => (Except.error e, c2, 1)
        | Except.ok raws =>
          (Except.ok (raws.map normalizeRecord),
           putCache now (cacheKey store q page size) (raws.map normalizeRecord) c2, 1)
  else (Except.error "RAPIDAPI_KEY missing (set in Render env vars)", c, 0)

/-- A call on a cache miss with a working key and network performs one
upstream call, returns the normalized results and stores them. -/
theorem callStoreSearch_miss_ok (env : Env) (now : ℕ) (store q : String)
    (page size : ℕ) (c : CacheMap) (api : ApiInfo) (raws : List RawRecord)
    (hkey : env.hasKey = true) (hapi : getApiInfo store = some api)
    (hmiss : mapGet c (cacheKey store q page size) = none)
    (hnet : env.net store q page size = Except.ok raws) :
    callStoreSearch env now store q page size c =
      (Except.ok (raws.map normalizeRecord),
       putCache now (cacheKey store q page size) (raws.map normalizeRecord) c, 1) := by
  have hg : getCache now (cacheKey store q page size) c = (none, c) := by
    rw [getCache, hmiss]
  rw [callStoreSearch, if_pos hkey, hapi, hg, hnet]

/-- A call on a live cache hit performs no upstream call and returns the
cached value. -/
theorem callStoreSearch_hit (env : Env) (now : ℕ) (store q : String)
    (page size : ℕ) (c c2 : CacheMap) (api : ApiInfo) (v : List ProductRecord)
    (hkey : env.hasKey = true) (hapi : getApiInfo store = some api)
    (hget : getCache now (cacheKey store q page size) c = (some v, c2)) :
    callStoreSearch env now store q page size c = (Except.ok v, c2, 0) := by
  rw [callStoreSearch, if_pos hkey, hapi, hget]

/-- C5: cache semantics.  A get on a key whose stored expiry has been exceeded
deletes the entry and returns null, and the entry is absent afterwards; a get
within the TTL returns exactly the value that was put; and two callStoreSearch
calls with the same (store, query, page, size) key within the default TTL
issue a single upstream network call, the second returning the first call's
value from the cache. -/
theorem claim_c5 :
    (∀ (now : ℕ) (k : String) (c : CacheMap) (e : CacheEntry),
      mapGet c k = some e → now > e.untilMs →
      getCache now k c = (none, mapDelete c k) ∧ mapGet (mapDelete c k) k = none) ∧
    (∀ (now t ttl : ℕ) (k : String) (v : List ProductRecord) (c : CacheMap),
      now ≤ t + ttl →
      getCache now k (putCache t k v c ttl) = (some v, putCache t k v c ttl)) ∧
    (∀ (env : Env) (now1 now2 : ℕ) (store q : String) (page size : ℕ)
      (c : CacheMap) (api : ApiInfo) (raws : List RawRecord),
      env.hasKey = true →
      getApiInfo store = some api →
      mapGet c (cacheKey store q page size) = none →
      env.net store q page size = Except.ok raws →
      now2 ≤ now1 + 45000 →
      callStoreSearch env now1 store q page size c =
        (Except.ok (raws.map normalizeRecord),
         putCache now1 (cacheKey store q page size) (raws.map normalizeRecord) c, 1) ∧
      callStoreSearch env now2 store q page size
          (putCache now1 (cacheKey store q page size) (raws.map normalizeRecord) c) =
        (Except.ok (raws.map normalizeRecord),
         putCache now1 (cacheKey store q page size) (raws.map normalizeRecord) c, 0)) := by
  refine ⟨?_, ?_, ?_⟩
  · intro now k c e hget hexp
    constructor
    · rw [getCache, hget]
      exact if_pos hexp
    · exact mapGet_mapDelete_self c k
  · intro now t ttl k v c hlive
    rw [getCache, putCache, mapGet_mapSet_self]
    exact if_neg (not_lt.mpr hlive)
  · intro env now1 now2 store q page size c api raws hkey hapi hmiss hnet hlive
    constructor
    · exact callStoreSearch_miss_ok env now1 store q page size c api raws hkey hapi hmiss hnet
    · refine callStoreSearch_hit env now2 store q page size _ _ api _ hkey hapi ?_
      rw [getCache, putCache, mapGet_mapSet_self]
      exact if_neg (not_lt.mpr hlive)

/-- The all-ok environment used by the witnesses: the key is configured and
every upstream call returns an empty results array. -/
def envOk : Env := { hasKey := true, net := fun _ _ _ _ => Except.ok [] }

/-- Witness for C5 at concrete inputs: an expired entry (put at 0, ttl 10,
read at 11), a live entry (put at 0, read at 5), and a pair of callStoreSearch
calls for (coles, "oreo", 1, 15) on the empty cache at times 0 and 40000. -/
theorem claim_c5_witness :
    (getCache 11 "k" [("k", ⟨10, []⟩)] = (none, mapDelete [("k", ⟨10, []⟩)] "k") ∧
      mapGet (mapDelete [("k", (⟨10, []⟩ : CacheEntry))] "k") "k" = none) ∧
    getCache 5 "k" (putCache 0 "k" [] [] 10) = (some [], putCache 0 "k" [] [] 10) ∧
    (callStoreSearch envOk 0 "coles" "oreo" 1 15 [] =
      (Except.ok [], putCache 0 (cacheKey "coles" "oreo" 1 15) [] [], 1) ∧
     callStoreSearch envOk 40000 "coles" "oreo" 1 15
        (putCache 0 (cacheKey "coles" "oreo" 1 15) [] []) =
      (Except.ok [], putCache 0 (cacheKey "coles" "oreo" 1 15) [] [], 0)) := by
  refine ⟨claim_c5.1 11 "k" _ ⟨10, []⟩ rfl (by decide), ?_, ?_⟩
  · exact claim_c5.2.1 5 0 10 "k" [] [] (by decide)
  · exact claim_c5.2.2 envOk 0 40000 "coles" "oreo" 1 15 [] _ [] rfl (by rfl) rfl rfl
      (by decide)

/-- An HTTP response of a handler: 400 with an error body, 500 with an error
body, or 200 with a JSON value. -/
inductive HResp (α : Type) where
  | badRequest (msg : String)
  | serverError (msg : String)
  | ok (val : α)
deriving DecidableEq, Repr

/-- The GET /search handler (src/server.js lines 117-127): store defaults to
"coles" when the parameter is absent; a missing or empty q is rejected with
400 (JS !q); otherwise callStoreSearch(store, q, 1, 15) is awaited, a thrown
error becoming a 500. -/
def searchHandler (env : Env) (now : ℕ) (store q : Option String) (c : CacheMap) :
    HResp (List ProductRecord) × CacheMap :=
  match q with
  | none => (HResp.badRequest "Missing ?q=", c)
  | some qs =>
    if qs = "" then (HResp.badRequest "Missing ?q=", c)
    else
      match callStoreSearch env now (store.getD "coles") qs 1 15 c with
      | (Except.ok l, c2, _) => (HResp.ok l, c2)
      | (Except.error e, c2, _) => (HResp.serverError e, c2)

/-- C10: a /search request with no store parameter behaves exactly like one
with store=coles — with a non-empty q and a working environment it is served
with the normalized coles results rather than rejected — and the provider
lookup fails exactly for a store whose lowercasing is neither "coles" nor
"woolworths". -/
theorem claim_c10 : ∀ (env : Env) (now : ℕ) (c : CacheMap) (q : String)
    (raws : List RawRecord),
    (∀ q2 : Option String,
      searchHandler env now none q2 c = searchHandler env now (some "coles") q2 c) ∧
    (q ≠ "" → env.hasKey = true →
      mapGet c (cacheKey "coles" q 1 15) = none →
      env.net "coles" q 1 15 = Except.ok raws →
      searchHandler env now none (some q) c =
        (HResp.ok (raws.map normalizeRecord),
         putCache now (cacheKey "coles" q 1 15) (raws.map normalizeRecord) c)) ∧
    (∀ s : String, getApiInfo s = none ↔
      ¬(jsLower s = "coles" ∨ jsLower s = "woolworths")) := by
  intro env now c q raws
  refine ⟨fun q2 => rfl, ?_, ?_⟩
  · intro hq hkey hmiss hnet
    have hcall := callStoreSearch_miss_ok env now "coles" q 1 15 c
      ⟨"coles-product-price-api.p.rapidapi.com", "/coles/product-search"⟩ raws
      hkey (by rfl) hmiss hnet
    rw [searchHandler, if_neg hq]
    rw [show (none : Option String).getD "coles" = "coles" from rfl, hcall]
  · intro s
    by_cases h1 : jsLower s = "coles"
    · simp [getApiInfo, h1]
    · by_cases h2 : jsLower s = "woolworths"
      · simp [getApiInfo, h1, h2]
      · simp [getApiInfo, h1, h2]

/-- Witness for C10: envOk serving q = "oreo" on an empty cache through the
defaulted store. -/
theorem claim_c10_witness :
    searchHandler envOk 0 none (some "oreo") [] =
      (HResp.ok [], putCache 0 (cacheKey "coles" "oreo" 1 15) [] []) :=
  (claim_c10 envOk 0 [] "oreo" []).2.1 (by decide) rfl rfl rfl

/-- String.prototype.split(',') on the character list: splits at every comma,
keeping empty pieces. -/
def splitOnComma : List Char → List (List Char)
  | [] => [[]]
  | c :: rest =>
    match splitOnComma rest with
    | [] => [[]]
    | cur :: done => if c = ',' then [] :: cur :: done else (c :: cur) :: done

/-- String.prototype.trim on the character list (ASCII whitespace). -/
def jsTrimList (cs : List Char) : List Char :=
  ((cs.dropWhile isSpaceChar).reverse.dropWhile isSpaceChar).reverse

/-- The items parsing of GET /bulk-cheapest-perkg (src/server.js line 160):
(req.query.items || two-quotes).split(',').map(s => s.trim()).filter(Boolean). -/
def parseItems (items : Option String) : List String :=
  (((splitOnComma (items.getD "").data).map
      (fun cs => String.mk (jsTrimList cs))).filter (fun s => s ≠ ""))

/-- The JS test s.includes(sub): sub occurs contiguously in s. -/
def jsIncludes (s sub : String) : Bool := decide (List.IsInfix sub.data s.data)

/-- guessStore from src/server.js lines 144-145 and 173-174: label a record by
substring search over its lowercased url, woolworths checked first; no match
leaves the winner unlabeled. -/
def guessStore (p : ProductRecord) : Option String :=
  if jsIncludes (jsLower p.url) "woolworths" then some "woolworths"
  else if jsIncludes (jsLower p.url) "coles" then some "coles"
  else none

/-- The per-item reduction of /bulk-cheapest-perkg (lines 170-171): merge,
keep records with both price and pricePerKg present, reduce to the first
record with minimal pricePerKg. -/
def bulkItemBest (coles woolworths : List ProductRecord) : Option ProductRecord :=
  jsReduceMin kgKey
    ((coles ++ woolworths).filter (fun p => p.price.isSome && p.pricePerKg.isSome))

/-- The loop body of GET /bulk-cheapest-perkg (lines 164-177): for each item,
the two provider calls are awaited (their cache keys are disjoint — the store
is part of the key — so the concurrent JS calls are modelled sequentially),
and a thrown error aborts the whole loop; otherwise the item's entry carries
the attributed cheapest-per-kg record or null. -/
def bulkLoop (env : Env) (now : ℕ) :
    List String → CacheMap →
    Except String (List (String × Option (Option String × ProductRecord))) × CacheMap
  | [], c => (Except.ok [], c)
  | name :: rest, c =>
    match callStoreSearch env now "coles" name 1 15 c with
    | (Except.error e, c1, _) => (Except.error e, c1)
    | (Except.ok coles, c1, _) =>
      match callStoreSearch env now "woolworths" name 1 15 c1 with
      | (Except.error e, c2, _) => (Except.error e, c2)
      | (Except.ok woolworths, c2, _) =>
        match bulkLoop env now rest c2 with
        | (Except.error e, c3) => (Except.error e, c3)
        | (Except.ok out, c3) =>
          (Except.ok ((name,
            (bulkItemBest coles woolworths).map (fun b => (guessStore b, b))) :: out), c3)

/-- The GET /bulk-cheapest-perkg handler (src/server.js lines 158-184): parse
the items, reject an empty list with 400, process the items in order, and turn
a thrown error into a 500 for the whole request. -/
def bulkHandler (env : Env) (now : ℕ) (items : Option String) (c : CacheMap) :
    HResp (List (String × Option (Option String × ProductRecord))) × CacheMap :=
  if parseItems items = [] then (HResp.badRequest "Provide ?items=Flour,Sugar,...", c)
  else
    match bulkLoop env now (parseItems items) c with
    | (Except.ok out, c2) => (HResp.ok out, c2)
    | (Except.error e, c2) => (HResp.serverError e, c2)

/-- A provider call with a configured key, a known store and an always-ok
network succeeds, whatever the cache holds. -/
theorem callStoreSearch_ok (env : Env) (now : ℕ) (store q : String) (page size : ℕ)
    (c : CacheMap) (api : ApiInfo)
    (hkey : env.hasKey = true) (hapi : getApiInfo store = some api)
    (hnet : ∃ raws, env.net store q page size = Except.ok raws) :
    ∃ l c2 k, callStoreSearch env now store q page size c = (Except.ok l, c2, k) := by
  rcases hget : getCache now (cacheKey store q page size) c with ⟨_ | v, c2⟩
  · obtain ⟨raws, hraws⟩ := hnet
    refine ⟨raws.map normalizeRecord,
      putCache now (cacheKey store q page size) (raws.map normalizeRecord) c2, 1, ?_⟩
    rw [callStoreSearch, if_pos hkey, hapi, hget]
    simp only [hraws]
  · exact ⟨v, c2, 0, by rw [callStoreSearch, if_pos hkey, hapi, hget]⟩

/-- With a configured key and an always-ok network, the bulk loop succeeds and
produces exactly one entry per item, in order. -/
theorem bulkLoop_ok (env : Env) (now : ℕ)
    (hkey : env.hasKey = true)
    (hnet : ∀ (st n : String) (p s : ℕ), ∃ raws, env.net st n p s = Except.ok raws) :
    ∀ (items : List String) (c : CacheMap),
      ∃ out c2, bulkLoop env now items c = (Except.ok out, c2) ∧
        out.map Prod.fst = items := by
  intro items
  induction items with
  | nil => intro c; exact ⟨[], c, rfl, rfl⟩
  | cons name rest ih =>
    intro c
    obtain ⟨l1, c1, k1, h1⟩ := callStoreSearch_ok env now "coles" name 1 15 c
      ⟨"coles-product-price-api.p.rapidapi.com", "/coles/product-search"⟩
      hkey (by rfl) (hnet "coles" name 1 15)
    obtain ⟨l2, c2, k2, h2⟩ := callStoreSearch_ok env now "woolworths" name 1 15 c1
      ⟨"woolworths-products-api.p.rapidapi.com", "/woolworths/product-search/"⟩
      hkey (by rfl) (hnet "woolworths" name 1 15)
    obtain ⟨out, c3, h3, hmap⟩ := ih c2
    refine ⟨(name, (bulkItemBest l1 l2).map (fun b => (guessStore b, b))) :: out, c3, ?_, ?_⟩
    · simp only [bulkLoop, h1, h2, h3]
    · rw [List.map_cons, hmap]

/-- C8: the items parameter is split on commas, trimmed, and blank pieces
discarded; an empty surviving list yields 400; otherwise (with a working
environment) the report holds exactly one entry per surviving item in input
order; items=Flour, processes only "Flour" and an empty items= yields 400. -/
theorem claim_c8 : ∀ (env : Env) (now : ℕ) (c : CacheMap) (itemsQ : Option String),
    (parseItems itemsQ = [] →
      bulkHandler env now itemsQ c = (HResp.badRequest "Provide ?items=Flour,Sugar,...", c)) ∧
    (parseItems itemsQ ≠ [] → env.hasKey = true →
      (∀ (st n : String) (p s : ℕ), ∃ raws, env.net st n p s = Except.ok raws) →
      ∃ out c2, bulkHandler env now itemsQ c = (HResp.ok out, c2) ∧
        out.map Prod.fst = parseItems itemsQ) ∧
    parseItems (some "Flour,") = ["Flour"] ∧
    parseItems (some "") = [] := by
  intro env now c itemsQ
  refine ⟨?_, ?_, by decide, by decide⟩
  · intro hempty
    rw [bulkHandler, if_pos hempty]
  · intro hne hkey hnet
    obtain ⟨out, c2, hloop, hmap⟩ := bulkLoop_ok env now hkey hnet (parseItems itemsQ) c
    refine ⟨out, c2, ?_, hmap⟩
    rw [bulkHandler, if_neg hne]
    simp only [hloop]

/-- Witness for C8: an items value of "," parses to nothing and yields 400,
and items "Flour,Sugar" under envOk yields a two-entry report in order. -/
theorem claim_c8_witness :
    bulkHandler envOk 0 (some ",") [] =
      (HResp.badRequest "Provide ?items=Flour,Sugar,...", []) ∧
    (∃ out c2, bulkHandler envOk 0 (some "Flour,Sugar") [] = (HResp.ok out, c2) ∧
      out.map Prod.fst = parseItems (some "Flour,Sugar")) := by
  constructor
  · exact (claim_c8 envOk 0 [] (some ",")).1 (by decide)
  · exact (claim_c8 envOk 0 [] (some "Flour,Sugar")).2.1 (by decide) rfl
      (fun st n p s => ⟨[], rfl⟩)

/-- An environment in which only the coles fetch for item "A" fails; every
other fetch succeeds with an empty results array. -/
def envBoom : Env :=
  { hasKey := true,
    net := fun store name _ _ =>
      if store = "coles" ∧ name = "A" then Except.error "boom" else Except.ok [] }

/-- C4 counterexample to the claim as stated: under envBoom, the batch
"A,B" fails as a whole (500 with the first failure's message, item "B" absent
from any report), although "B" on its own is processed fine — so one item's
fetch failure does prevent the other items from being processed. -/
theorem claim_c4_counterexample :
    (bulkHandler envBoom 0 (some "A,B") []).1 = HResp.serverError "boom" ∧
    (bulkHandler envBoom 0 (some "B") []).1 = HResp.ok [("B", none)] := by
  constructor
  · rfl
  · rfl

/-- C4 (amended): a fetch failure for one input item aborts the whole batch —
whatever the later items are, the loop stops at the failing item and the
handler turns the failure into a server error for the entire request, with no
per-item report. -/
theorem claim_c4 : ∀ (env : Env) (now : ℕ) (c c1 : CacheMap) (k : ℕ)
    (name e : String) (rest : List String) (itemsQ : Option String),
    callStoreSearch env now "coles" name 1 15 c = (Except.error e, c1, k) →
    bulkLoop env now (name :: rest) c = (Except.error e, c1) ∧
    (parseItems itemsQ = name :: rest →
      bulkHandler env now itemsQ c = (HResp.serverError e, c1)) := by
  intro env now c c1 k name e rest itemsQ h
  have hl : bulkLoop env now (name :: rest) c = (Except.error e, c1) := by
    simp only [bulkLoop, h]
  refine ⟨hl, ?_⟩
  intro hparse
  rw [bulkHandler, if_neg (by rw [hparse]; exact List.cons_ne_nil name rest), hparse]
  simp only [hl]

/-- Witness for C4 under envBoom: the failing first item "A" kills the loop
["A", "B"] and the whole "A,B" request. -/
theorem claim_c4_witness :
    bulkLoop envBoom 0 ["A", "B"] [] = (Except.error "boom", []) ∧
    bulkHandler envBoom 0 (some "A,B") [] = (HResp.serverError "boom", []) := by
  have h := claim_c4 envBoom 0 [] [] 1 "A" "boom" ["B"] (some "A,B") (by rfl)
  exact ⟨h.1, h.2 (by decide)⟩
